import Mathlib

/-!
# Verification of the dadafits page-transformation engine

Shallow embedding of the dadafits reduction pipeline (AA-ALERT/dadafits):
`src/src/manipulate.c` (pack_sc34, deinterleave) and `src/src/main.c`
(geometry resolution, the per-page driver loop, and synthesized-beam
assembly).  Byte buffers are modelled as total functions `ℕ → ℕ` (a C
array read or write at index `i` is the function value at `i`; machine
integers are `ℕ` with an explicit `% 2^32` where C unsigned overflow
matters).  A loop nest of stores is modelled as the list of
(index, value) writes in iteration order, applied left to right with
`Function.update`, so overwrite order is preserved exactly.
-/

/-- Modelled from the spec: `dadafits_internal.h` is not among the sources;
the spec (§3) fixes highChannelCount = 1536, and the code's comments
(manipulate.c line 128: `NCHANNELS/4 (=1536/4=384)`) agree. -/
def NCHANNELS : ℕ := 1536

/-- Modelled from the spec: polarization count for IQUV data, 4 (§3). -/
def NPOLS : ℕ := 4

/-- Modelled from the spec: lowChannelCount = 384 (§3). -/
def NCHANNELS_LOW : ℕ := 384

/-- Modelled from the spec: lowTimeSamples = 500 (§3); manipulate.c line 36
("we are summing 500 squares") agrees. -/
def NTIMES_LOW : ℕ := 500

/-- Modelled from the spec: raw time samples per page for science case 3 (§3). -/
def SC3_NTIMES : ℕ := 12500

/-- Modelled from the spec: raw time samples per page for science case 4 (§3). -/
def SC4_NTIMES : ℕ := 25000

/-- Modelled from the spec: 32 subbands partition the channel axis (§3). -/
def NSUBBANDS : ℕ := 32

/-- Modelled from the spec: each subband holds 48 contiguous channels (§3),
1536 / 32 = 48. -/
def FREQS_PER_SUBBAND : ℕ := 48

/-- Modelled from the spec: the sentinel marking an unset synthesized-beam
table entry (`SUBBAND_UNSET`, defined in the missing `dadafits_internal.h`).
Its exact value is immaterial to the claims below beyond being distinct from
every valid tied-array beam index; we take -1 on the table's `int` entries. -/
def SUBBAND_UNSET : ℤ := -1

/-- Apply a list of (index, value) stores to a buffer, first to last, so a
later store to the same index wins — the semantics of a C loop nest of
assignments `buf[index] = value`. -/
def applyWrites (l : List (ℕ × ℕ)) (f : ℕ → ℕ) : ℕ → ℕ :=
  l.foldl (fun g p => Function.update g p.1 p.2) f

theorem applyWrites_nil (f : ℕ → ℕ) : applyWrites [] f = f := rfl

theorem applyWrites_cons (p : ℕ × ℕ) (l : List (ℕ × ℕ)) (f : ℕ → ℕ) :
    applyWrites (p :: l) f = applyWrites l (Function.update f p.1 p.2) := rfl

theorem applyWrites_append (l₁ l₂ : List (ℕ × ℕ)) (f : ℕ → ℕ) :
    applyWrites (l₁ ++ l₂) f = applyWrites l₂ (applyWrites l₁ f) := by
  simp [applyWrites, List.foldl_append]

/-- An index no store targets keeps its initial value. -/
theorem applyWrites_not_written (l : List (ℕ × ℕ)) (f : ℕ → ℕ) (i : ℕ)
    (h : ∀ p ∈ l, p.1 ≠ i) : applyWrites l f i = f i := by
  induction l generalizing f with
  | nil => rfl
  | cons p t ih =>
    rw [applyWrites_cons, ih _ (fun q hq => h q (List.mem_cons_of_mem p hq))]
    exact Function.update_noteq (Ne.symm (h p (List.mem_cons_self p t))) _ f

/-- If every store to index `i` carries the same value `v` and at least one
does, the final buffer holds `v` at `i`. -/
theorem applyWrites_written (l : List (ℕ × ℕ)) (f : ℕ → ℕ) (i v : ℕ)
    (hv : ∀ p ∈ l, p.1 = i → p.2 = v) (hm : ∃ p ∈ l, p.1 = i) :
    applyWrites l f i = v := by
  induction l generalizing f with
  | nil => obtain ⟨p, hp, -⟩ := hm; exact absurd hp (List.not_mem_nil p)
  | cons p t ih =>
    rw [applyWrites_cons]
    by_cases hex : ∃ q ∈ t, q.1 = i
    · exact ih _ (fun q hq => hv q (List.mem_cons_of_mem p hq)) hex
    · have hnone : ∀ q ∈ t, q.1 ≠ i := by
        intro q hq
        exact fun hqi => hex ⟨q, hq, hqi⟩
      rw [applyWrites_not_written t _ i hnone]
      obtain ⟨q, hq, hqi⟩ := hm
      rcases List.mem_cons.mp hq with hq | hq
      · subst hq
        rw [hqi, Function.update_same]
        exact hv q (List.mem_cons_self q t) hqi
      · exact absurd hqi (hnone q hq)

/-- Uniqueness of the quotient/remainder decomposition `a * n + b` with
`b < n`: the arithmetic core of the index-injectivity arguments below. -/
theorem mul_add_lt_inj {n a a' b b' : ℕ} (hb : b < n) (hb' : b' < n)
    (h : a * n + b = a' * n + b') : a = a' ∧ b = b' := by
  rcases Nat.lt_trichotomy a a' with hlt | heq | hgt
  · exfalso
    have : a * n + b < a' * n + b' := by
      calc a * n + b < a * n + n := by omega
        _ = (a + 1) * n := by ring
        _ ≤ a' * n := Nat.mul_le_mul_right n hlt
        _ ≤ a' * n + b' := Nat.le_add_right _ _
    omega
  · constructor
    · exact heq
    · subst heq; omega
  · exfalso
    have : a' * n + b' < a * n + b := by
      calc a' * n + b' < a' * n + n := by omega
        _ = (a' + 1) * n := by ring
        _ ≤ a * n := Nat.mul_le_mul_right n hgt
        _ ≤ a * n + b := Nat.le_add_right _ _
    omega

/-!
## Deinterleave/Transpose engine — `deinterleave`, manipulate.c lines 123-172

The C loop nest is, in order: `tab` over `[0, ntabs)`, `channel_offset`
over `{0, 4, ..., NCHANNELS-4}` (written `4 * cg` with `cg < NCHANNELS/4`),
`sequence_number` over `[0, sequence_length)`, then per packet `tn < 500`,
`cn < 4`, `pn < NPOLS`; the input pointer `packet` advances by one byte per
innermost iteration, so the byte consumed at a tuple sits at the tuple's
lexicographic rank in the page.
-/

/-- The store target of one input byte, verbatim from manipulate.c
lines 160-165 (C's left-associated `+`/`-` coincides with Lean's here,
and the truncated subtractions never truncate on the loop domain). -/
def deinterleaveTarget (ntimes tab seq tn cg cn pn : ℕ) : ℕ :=
  (tab * ntimes + seq * 500 + tn) * NPOLS * NCHANNELS +
    (NPOLS - 1 - pn) * NCHANNELS + NCHANNELS - 1 - (4 * cg + cn)

/-- Linear position in the page of the byte consumed at a tuple: the running
`*packet++` pointer of manipulate.c line 165 advances once per innermost
iteration, and each packet is 500 * 4 * 4 = 8000 bytes. -/
def pagePos (seqlen tab cg seq tn cn pn : ℕ) : ℕ :=
  ((tab * (NCHANNELS / 4) + cg) * seqlen + seq) * 8000 + tn * 16 + cn * 4 + pn

/-- The ordered list of stores the deinterleave loop nest performs. -/
def deinterleaveWrites (page : ℕ → ℕ) (ntimes ntabs seqlen : ℕ) :
    List (ℕ × ℕ) :=
  (List.range ntabs).flatMap fun tab =>
    (List.range (NCHANNELS / 4)).flatMap fun cg =>
      (List.range seqlen).flatMap fun seq =>
        (List.range 500).flatMap fun tn =>
          (List.range 4).flatMap fun cn =>
            (List.range NPOLS).map fun pn =>
              (deinterleaveTarget ntimes tab seq tn cg cn pn,
               page (pagePos seqlen tab cg seq tn cn pn))

/-- `deinterleave` of manipulate.c: scatter the page into the transposed
buffer. -/
def deinterleave (page : ℕ → ℕ) (ntimes ntabs seqlen : ℕ)
    (transposed : ℕ → ℕ) : ℕ → ℕ :=
  applyWrites (deinterleaveWrites page ntimes ntabs seqlen) transposed

theorem mem_deinterleaveWrites {page : ℕ → ℕ} {ntimes ntabs seqlen i v : ℕ} :
    (i, v) ∈ deinterleaveWrites page ntimes ntabs seqlen ↔
      ∃ tab, tab < ntabs ∧ ∃ cg, cg < NCHANNELS / 4 ∧ ∃ seq, seq < seqlen ∧
        ∃ tn, tn < 500 ∧ ∃ cn, cn < 4 ∧ ∃ pn, pn < NPOLS ∧
          i = deinterleaveTarget ntimes tab seq tn cg cn pn ∧
          v = page (pagePos seqlen tab cg seq tn cn pn) := by
  simp only [deinterleaveWrites, List.mem_flatMap, List.mem_map, List.mem_range,
    Prod.mk.injEq]
  constructor
  · rintro ⟨tab, htab, cg, hcg, seq, hseq, tn, htn, cn, hcn, pn, hpn, hi, hv⟩
    exact ⟨tab, htab, cg, hcg, seq, hseq, tn, htn, cn, hcn, pn, hpn,
      hi.symm, hv.symm⟩
  · rintro ⟨tab, htab, cg, hcg, seq, hseq, tn, htn, cn, hcn, pn, hpn, hi, hv⟩
    exact ⟨tab, htab, cg, hcg, seq, hseq, tn, htn, cn, hcn, pn, hpn,
      hi.symm, hv.symm⟩

/-- The store target determines the loop tuple: no two iterations of the
deinterleave nest write the same cell (given the geometry invariant
`500 * sequence_length ≤ ntimes`, which holds for both science cases). -/
theorem deinterleaveTarget_inj {ntimes seqlen : ℕ}
    (hnt : 500 * seqlen ≤ ntimes)
    {tab seq tn cg cn pn tab' seq' tn' cg' cn' pn' : ℕ}
    (hseq : seq < seqlen) (htn : tn < 500) (hcg : cg < NCHANNELS / 4)
    (hcn : cn < 4) (hpn : pn < NPOLS)
    (hseq' : seq' < seqlen) (htn' : tn' < 500) (hcg' : cg' < NCHANNELS / 4)
    (hcn' : cn' < 4) (hpn' : pn' < NPOLS)
    (h : deinterleaveTarget ntimes tab seq tn cg cn pn =
         deinterleaveTarget ntimes tab' seq' tn' cg' cn' pn') :
    tab = tab' ∧ seq = seq' ∧ tn = tn' ∧ cg = cg' ∧ cn = cn' ∧ pn = pn' := by
  simp only [deinterleaveTarget, NPOLS, NCHANNELS] at h hcg hcn hpn hcg' hcn' hpn'
  -- Split off the within-time-sample remainder (pol/channel part, < 6144).
  have hsplit :
      (tab * ntimes + seq * 500 + tn) * 4 * 1536 +
        ((4 - 1 - pn) * 1536 + 1536 - 1 - (4 * cg + cn)) =
      (tab' * ntimes + seq' * 500 + tn') * 4 * 1536 +
        ((4 - 1 - pn') * 1536 + 1536 - 1 - (4 * cg' + cn')) := by omega
  have hr : (4 - 1 - pn) * 1536 + 1536 - 1 - (4 * cg + cn) < 6144 := by omega
  have hr' : (4 - 1 - pn') * 1536 + 1536 - 1 - (4 * cg' + cn') < 6144 := by omega
  have h6144 :
      (tab * ntimes + seq * 500 + tn) * 6144 +
        ((4 - 1 - pn) * 1536 + 1536 - 1 - (4 * cg + cn)) =
      (tab' * ntimes + seq' * 500 + tn') * 6144 +
        ((4 - 1 - pn') * 1536 + 1536 - 1 - (4 * cg' + cn')) := by
    calc (tab * ntimes + seq * 500 + tn) * 6144 +
        ((4 - 1 - pn) * 1536 + 1536 - 1 - (4 * cg + cn))
        = (tab * ntimes + seq * 500 + tn) * 4 * 1536 +
            ((4 - 1 - pn) * 1536 + 1536 - 1 - (4 * cg + cn)) := by ring_nf
      _ = (tab' * ntimes + seq' * 500 + tn') * 4 * 1536 +
            ((4 - 1 - pn') * 1536 + 1536 - 1 - (4 * cg' + cn')) := hsplit
      _ = (tab' * ntimes + seq' * 500 + tn') * 6144 +
            ((4 - 1 - pn') * 1536 + 1536 - 1 - (4 * cg' + cn')) := by ring_nf
  obtain ⟨hT, hrem⟩ := mul_add_lt_inj hr hr' h6144
  -- Time part: `tab * ntimes + t` with `t < ntimes` determines `tab` and `t`.
  have ht : seq * 500 + tn < ntimes := by omega
  have ht' : seq' * 500 + tn' < ntimes := by omega
  have hT' : tab * ntimes + (seq * 500 + tn) = tab' * ntimes + (seq' * 500 + tn') := by
    omega
  obtain ⟨htabs, htt⟩ := mul_add_lt_inj ht ht' hT'
  refine ⟨htabs, ?_, ?_, ?_, ?_, ?_⟩ <;> omega

/-- Where each input byte lands: the final transposed buffer holds, at the
code's store target of a loop tuple, exactly the page byte that tuple
consumed.  Shared workhorse for the claims about `deinterleave`. -/
theorem deinterleave_apply (page : ℕ → ℕ) (ntimes ntabs seqlen : ℕ)
    (transposed : ℕ → ℕ) (tab cg seq tn cn pn : ℕ)
    (hnt : 500 * seqlen ≤ ntimes) (htab : tab < ntabs)
    (hcg : cg < NCHANNELS / 4) (hseq : seq < seqlen) (htn : tn < 500)
    (hcn : cn < 4) (hpn : pn < NPOLS) :
    deinterleave page ntimes ntabs seqlen transposed
      (deinterleaveTarget ntimes tab seq tn cg cn pn) =
    page (pagePos seqlen tab cg seq tn cn pn) := by
  refine applyWrites_written _ _ _ _ ?_ ?_
  · rintro ⟨i, w⟩ hp hpi
    obtain ⟨tab', htab', cg', hcg', seq', hseq', tn', htn', cn', hcn', pn',
      hpn', hi, hw⟩ := mem_deinterleaveWrites.mp hp
    simp only at hpi
    obtain ⟨e1, e2, e3, e4, e5, e6⟩ :=
      deinterleaveTarget_inj hnt hseq' htn' hcg' hcn' hpn'
        hseq htn hcg hcn hpn (hi ▸ hpi)
    subst e1; subst e2; subst e3; subst e4; subst e5; subst e6
    exact hw
  · exact ⟨(deinterleaveTarget ntimes tab seq tn cg cn pn,
      page (pagePos seqlen tab cg seq tn cn pn)),
      mem_deinterleaveWrites.mpr
        ⟨tab, htab, cg, hcg, seq, hseq, tn, htn, cn, hcn, pn, hpn, rfl, rfl⟩,
      rfl⟩

/-- C1 (amended): for every IQUV-mode page and every input byte addressed by
(beam `tab`, channelGroup `cg`, sequenceIndex `seq`, localTime `tn`,
localChannel `cn`, localPol `pn`), `deinterleave` writes that byte into the
transposed buffer at
`(tab * rawTimeSamples + seq * 500 + tn) * polCount * highChannelCount +
(polCount - 1 - pn) * highChannelCount + (highChannelCount - 1 - c)` with
`c = 4 * cg + cn` — i.e. time-major within a beam (beam, time, pol, channel),
with the polarization and channel axes reversed; not the channel-major
layout the original claim states. -/
theorem deinterleave_writes_time_major (page : ℕ → ℕ)
    (ntimes ntabs seqlen : ℕ) (transposed : ℕ → ℕ) (tab cg seq tn cn pn : ℕ)
    (hnt : 500 * seqlen ≤ ntimes) (htab : tab < ntabs)
    (hcg : cg < NCHANNELS / 4) (hseq : seq < seqlen) (htn : tn < 500)
    (hcn : cn < 4) (hpn : pn < NPOLS) :
    deinterleave page ntimes ntabs seqlen transposed
      ((tab * ntimes + seq * 500 + tn) * NPOLS * NCHANNELS +
        (NPOLS - 1 - pn) * NCHANNELS + NCHANNELS - 1 - (4 * cg + cn)) =
    page (pagePos seqlen tab cg seq tn cn pn) :=
  deinterleave_apply page ntimes ntabs seqlen transposed tab cg seq tn cn pn
    hnt htab hcg hseq htn hcn hpn

/-- Witness for `deinterleave_writes_time_major` at a concrete geometry
(ntimes 500, one beam, one packet sequence) and the all-zero tuple. -/
theorem deinterleave_writes_time_major_witness :
    deinterleave (fun i => i) 500 1 1 (fun _ => 0)
      ((0 * 500 + 0 * 500 + 0) * NPOLS * NCHANNELS +
        (NPOLS - 1 - 0) * NCHANNELS + NCHANNELS - 1 - (4 * 0 + 0)) =
    (fun i => i) (pagePos 1 0 0 0 0 0 0) :=
  deinterleave_writes_time_major (fun i => i) 500 1 1 (fun _ => 0) 0 0 0 0 0 0
    (by decide) (by decide) (by decide) (by decide) (by decide) (by decide)
    (by decide)

/-- Counterexample to C1 as stated: under the science case 3 IQUV geometry
(ntimes 12500, 9 tabs, 25 sequences), take the page that holds byte value
`i` at position `i` and the marker tuple (beam 0, channelGroup 0,
sequence 0, localTime 0, localChannel 0, localPol 0), whose marker byte is
`page 0 = 0`.  The claim predicts that marker at index
`(highChannelCount - 1 - 0) * polCount * 12500 + (polCount - 1 - 0) * 12500
+ 0 = 76787500`; the transposed buffer actually holds `10599964` there (the
byte of the tuple beam 0, channelGroup 52, sequence 24, localTime 497,
localChannel 3, localPol 0), not the marker. -/
theorem deinterleave_channel_major_refuted :
    deinterleave (fun i => i) 12500 9 25 (fun _ => 0)
      ((NCHANNELS - 1 - (4 * 0 + 0)) * NPOLS * 12500 +
        (NPOLS - 1 - 0) * 12500 + (0 * 500 + 0)) = 10599964 ∧
    (10599964 : ℕ) ≠ (fun i => i) (pagePos 25 0 0 0 0 0 0) := by
  constructor
  · have hidx : (NCHANNELS - 1 - (4 * 0 + 0)) * NPOLS * 12500 +
        (NPOLS - 1 - 0) * 12500 + (0 * 500 + 0) =
        deinterleaveTarget 12500 0 24 497 52 3 0 := by decide
    rw [hidx,
      deinterleave_apply (fun i => i) 12500 9 25 (fun _ => 0) 0 52 24 497 3 0
        (by decide) (by decide) (by decide) (by decide) (by decide)
        (by decide) (by decide)]
    decide
  · decide

/-!
## Geometry resolution — main.c lines 298-374

The two `switch` statements of `main`: the science-case switch fixes
`ntabs`, `sequence_length`, `ntimes`, `nchannels` and validates
`padded_size`; the science-mode switch then adjusts `ntimes`, `nchannels`,
`ntabs`, sets `npols`, and rejects synthesized-beam output for the
compressed modes.  Every `exit(EXIT_FAILURE)` path is `none`.
-/

structure Geometry where
  ntabs : ℕ
  nchannels : ℕ
  ntimes : ℕ
  npols : ℕ
  sequence_length : ℕ

/-- The geometry `main` resolves from (science_case, science_mode,
padded_size, synthesized beams requested), main.c lines 298-374. -/
def resolveGeometry (science_case science_mode padded_size : ℕ)
    (make_synthesized_beams : Bool) : Option Geometry :=
  (match science_case with
    | 3 => if padded_size < SC3_NTIMES then none
           else some (9, 25, SC3_NTIMES, NCHANNELS)
    | 4 => if padded_size < SC4_NTIMES then none
           else some (12, 25, SC4_NTIMES, NCHANNELS)
    | _ => none).bind
  fun g =>
    match science_mode, g with
    | 0, (ntabs, seqlen, _, _) =>
        if make_synthesized_beams then none
        else some ⟨ntabs, NCHANNELS_LOW, NTIMES_LOW, 1, seqlen⟩
    | 1, (ntabs, seqlen, ntimes, nchannels) =>
        some ⟨ntabs, nchannels, ntimes, 4, seqlen⟩
    | 2, (_, seqlen, _, _) =>
        if make_synthesized_beams then none
        else some ⟨1, NCHANNELS_LOW, NTIMES_LOW, 1, seqlen⟩
    | 3, (_, seqlen, ntimes, nchannels) =>
        some ⟨1, nchannels, ntimes, 4, seqlen⟩
    | _, _ => none

/-- Counterexample to C2 as stated: the code sets `sequence_length = 25`
for science case 4 as well (main.c line 314), not 50, and science case 3
resolves to 9 tied-array beams (main.c line 300), not 12 — so a science
case 3, mode 0 run emits 9 rows per page, not 12. -/
theorem geometry_claim_refuted :
    ((resolveGeometry 4 1 25000 false).map Geometry.sequence_length =
        some 25 ∧ (25 : ℕ) ≠ 50) ∧
    ((resolveGeometry 3 0 12500 false).map Geometry.ntabs = some 9 ∧
        (9 : ℕ) ≠ 12) :=
  ⟨⟨rfl, by decide⟩, ⟨rfl, by decide⟩⟩

/-!
## Pipeline driver — main.c lines 409-534

The streaming loop: `page_count` starts at 0 (main.c line 59); for each
page the dispatch emits one output row per beam, each carrying row id
`page_count + 1` (the `write_fits` calls at lines 438-446, 497-505 and
512-520 all pass `page_count + 1`); the counter is incremented once after
the page is released (line 532).  A row is modelled as
(beam index, row id). -/
def driverRows (beams : List ℕ) : ℕ → ℕ → List (ℕ × ℕ)
  | 0, _ => []
  | npages + 1, page_count =>
      beams.map (fun b => (b, page_count + 1)) ++
        driverRows beams npages (page_count + 1)

/-- All rows a run over `npages` pages emits, in emission order; the page
counter starts at 0. -/
def pipelineRows (beams : List ℕ) (npages : ℕ) : List (ℕ × ℕ) :=
  driverRows beams npages 0

theorem range_filter_eq (n b : ℕ) :
    (List.range n).filter (fun x => decide (x = b)) =
      if b < n then [b] else [] := by
  induction n with
  | zero => simp
  | succ n ih =>
    rw [List.range_succ, List.filter_append, ih]
    by_cases hb : b < n
    · have : ¬(n = b) := by omega
      simp [hb, this, Nat.lt_succ_of_lt hb]
    · by_cases he : b = n
      · subst he
        simp [hb, Nat.lt_succ_self]
      · have h1 : ¬(b < n + 1) := by omega
        have h2 : ¬(n = b) := fun h => he h.symm
        simp [hb, h1, h2]

theorem driverRows_filter (ntabs b : ℕ) (hb : b < ntabs) :
    ∀ npages page_count,
      ((driverRows (List.range ntabs) npages page_count).filter
          (fun r => decide (r.1 = b))).map Prod.snd =
        (List.range npages).map (fun p => page_count + p + 1) := by
  intro npages
  induction npages with
  | zero => intro page_count; simp [driverRows]
  | succ n ih =>
    intro page_count
    rw [driverRows, List.filter_append, List.map_append, ih (page_count + 1)]
    have hfirst :
        ((List.range ntabs).map (fun t => (t, page_count + 1))).filter
            (fun r => decide (r.1 = b)) = [(b, page_count + 1)] := by
      rw [List.filter_map]
      have : ((fun r : ℕ × ℕ => decide (r.1 = b)) ∘
          fun t => (t, page_count + 1)) = fun x => decide (x = b) := by
        funext x; simp
      rw [this, range_filter_eq ntabs b, if_pos hb]
      rfl
    rw [hfirst, List.range_succ_eq_map]
    have hfun : ((fun p => page_count + p + 1) ∘ Nat.succ) =
        fun p => page_count + 1 + p + 1 := by
      funext p; simp [Function.comp]; omega
    simp only [List.map_cons, List.map_map, hfun, List.map_nil,
      List.nil_append, List.cons_append, List.singleton_append, Nat.add_zero]

/-- C9: the page counter starts at 0 and advances by exactly 1 per page,
every row emitted for a page carries row id `page_count + 1`, so for each
beam the emitted row ids over a run are exactly 1, 2, ..., npages —
strictly increasing and gap-free. -/
theorem pipeline_row_ids (ntabs npages b : ℕ) (hb : b < ntabs) :
    ((pipelineRows (List.range ntabs) npages).filter
        (fun r => decide (r.1 = b))).map Prod.snd =
      (List.range npages).map (fun p => p + 1) := by
  rw [pipelineRows, driverRows_filter ntabs b hb npages 0]
  have : (fun p => 0 + p + 1) = fun p : ℕ => p + 1 := by funext p; omega
  rw [this]

/-- Witness for `pipeline_row_ids`: 3 beams, 2 pages, beam 1. -/
theorem pipeline_row_ids_witness :
    ((pipelineRows (List.range 3) 2).filter
        (fun r => decide (r.1 = 1))).map Prod.snd =
      (List.range 2).map (fun p => p + 1) :=
  pipeline_row_ids 3 2 1 (by decide)

/-- C2 (amended): the geometry the code actually resolves — packet sequence
count 25 for BOTH science cases; 9 tied-array beams for science case 3 and
12 for science case 4 (modes 0 and 1), 1 incoherent beam for modes 2 and 3;
1 polarization for the compressed modes (0, 2) and 4 for the IQUV modes
(1, 3); hence a science case 3, mode 0 run emits 9 rows per page. -/
theorem geometry_table_as_implemented :
    resolveGeometry 3 0 12500 false =
        some ⟨9, NCHANNELS_LOW, NTIMES_LOW, 1, 25⟩ ∧
    resolveGeometry 3 1 12500 false =
        some ⟨9, NCHANNELS, SC3_NTIMES, 4, 25⟩ ∧
    resolveGeometry 3 2 12500 false =
        some ⟨1, NCHANNELS_LOW, NTIMES_LOW, 1, 25⟩ ∧
    resolveGeometry 3 3 12500 false =
        some ⟨1, NCHANNELS, SC3_NTIMES, 4, 25⟩ ∧
    resolveGeometry 4 0 25000 false =
        some ⟨12, NCHANNELS_LOW, NTIMES_LOW, 1, 25⟩ ∧
    resolveGeometry 4 1 25000 false =
        some ⟨12, NCHANNELS, SC4_NTIMES, 4, 25⟩ ∧
    resolveGeometry 4 2 25000 false =
        some ⟨1, NCHANNELS_LOW, NTIMES_LOW, 1, 25⟩ ∧
    resolveGeometry 4 3 25000 false =
        some ⟨1, NCHANNELS, SC4_NTIMES, 4, 25⟩ ∧
    (pipelineRows (List.range 9) 3).length = 3 * 9 ∧
    ((pipelineRows (List.range 9) 3).filter
        (fun r => decide (r.2 = 1))).length = 9 :=
  ⟨rfl, rfl, rfl, rfl, rfl, rfl, rfl, rfl, by decide, by decide⟩

/-- C5 (code evidence): for the science case 4 IQUV geometry the code
resolves (ntimes = 25000, sequence_length = 25, 1 incoherent beam), the
deinterleave loop nest only reaches absolute times
`sequence_number * 500 + tn < 25 * 500 = 12500`, so the transposed-buffer
cell at index `12500 * NPOLS * NCHANNELS` — inside the
`ntabs * NCHANNELS * NPOLS * ntimes`-byte buffer — is never written and
keeps its previous contents, for every page and every prior buffer state. -/
theorem deinterleave_sc4_partial :
    resolveGeometry 4 3 25000 false =
        some ⟨1, NCHANNELS, SC4_NTIMES, 4, 25⟩ ∧
    12500 * (NPOLS * NCHANNELS) < 1 * NCHANNELS * NPOLS * SC4_NTIMES ∧
    ∀ page transposed : ℕ → ℕ,
      deinterleave page SC4_NTIMES 1 25 transposed
          (12500 * (NPOLS * NCHANNELS)) =
        transposed (12500 * (NPOLS * NCHANNELS)) := by
  refine ⟨rfl, by decide, ?_⟩
  intro page transposed
  refine applyWrites_not_written _ _ _ ?_
  rintro ⟨i, w⟩ hp
  obtain ⟨tab, htab, cg, hcg, seq, hseq, tn, htn, cn, hcn, pn, hpn, hi, -⟩ :=
    mem_deinterleaveWrites.mp hp
  simp only
  rw [hi]
  have htab0 : tab = 0 := by omega
  subst htab0
  simp only [deinterleaveTarget, NPOLS, NCHANNELS, SC4_NTIMES] at hcg ⊢
  omega

/-!
## Downsample+Pack codec — `pack_sc34`, manipulate.c lines 14-108

Per channel `dc < NCHANNELS_LOW` the first pass accumulates the channel's
500 downsampled samples into a C `unsigned int` sum (wraps mod 2^32) and a
sum of squares; `float avg = sum / 500.0` and `unsigned int cutoff = avg`
truncate the mean.  The float statistics (`std`, and the values written to
`fits_offset`/`fits_scale`) are not modelled — they feed only the
dequantization metadata, and the claims about them concern the store
*indices* (`offsetScaleIdx`), which are integer arithmetic.  Within the
documented sample range (manipulate.c lines 29-36: a downsampled sample is
at most 255 * 50 * 4 = 51000) the mean is below 65536, where the
single-precision rounding of `sum / 500.0` never reaches the next integer
(the fractional part is at most 499/500 and the float spacing is at most
2^-8), so the truncated float equals `⌊sum / 500⌋`, i.e. `ℕ` division.
The second pass overwrites each sample in place with its 1-bit value; the
third pass packs the (overwritten) samples into bytes, the read pointer
starting at channel `NCHANNELS_LOW - 1 - dc` and *advancing* by one channel
per bit (`temp1 += NTIMES_LOW`, lines 79-91).
-/

/-- The C `unsigned int` sum of channel `dc`'s 500 samples
(manipulate.c lines 39-46). -/
def chanSum (d : ℕ → ℕ) (dc : ℕ) : ℕ :=
  (∑ dt in Finset.range NTIMES_LOW, d (dc * NTIMES_LOW + dt)) % 2 ^ 32

/-- The quantization cutoff for channel `dc`:
`float avg = sum / (1.0 * NTIMES_LOW); unsigned int cutoff = avg;`
(manipulate.c lines 47, 57) — truncation, `ℕ` division (see the section
comment for why the float detour cannot change the floor in range). -/
def cutoff (d : ℕ → ℕ) (dc : ℕ) : ℕ :=
  chanSum d dc / NTIMES_LOW

/-- The downsampled array after the second pass (manipulate.c lines 59-63):
every in-range element is overwritten with
`*temp1 > cutoff ? 1 : 0`; element `i` belongs to channel `i / NTIMES_LOW`.
Out-of-range indices (which the buggy third pass does read) keep their
incoming value — in the C program they alias adjacent globals. -/
def quantized (d : ℕ → ℕ) : ℕ → ℕ := fun i =>
  if i < NCHANNELS_LOW * NTIMES_LOW then
    if cutoff d (i / NTIMES_LOW) < d i then 1 else 0
  else d i

/-- Index of the per-channel `fits_offset`/`fits_scale` store for loop
index `dc` (manipulate.c lines 54-55): `NCHANNELS_LOW - dc`. -/
def offsetScaleIdx (dc : ℕ) : ℕ := NCHANNELS_LOW - dc

/-- Index read for bit `k` of the packed byte at (dt, dc): the pointer
starts at `downsampled[(NCHANNELS_LOW - 1 - dc) * NTIMES_LOW + dt]`
(line 75) and does `temp1 += NTIMES_LOW` before each further bit
(lines 79-91), i.e. it moves to the NEXT channel. -/
def packReadIdx (dc dt k : ℕ) : ℕ :=
  (NCHANNELS_LOW - 1 - dc) * NTIMES_LOW + dt + k * NTIMES_LOW

/-- The packed byte assembled at (dt, dc) by lines 78-92: bit `k` is set
iff the value read at `packReadIdx dc dt k` is nonzero (C truthiness). -/
def packByte (d : ℕ → ℕ) (dt dc : ℕ) : ℕ :=
  ∑ k in Finset.range 8, if d (packReadIdx dc dt k) ≠ 0 then 2 ^ k else 0

/-- The third pass's stores into `packed` (lines 69-72): for `dt < 500` and
`dc ∈ {0, 8, ..., NCHANNELS_LOW - 8}` the byte goes to
`(dt * NCHANNELS_LOW + dc) / 8`. -/
def packWrites (d : ℕ → ℕ) : List (ℕ × ℕ) :=
  (List.range NTIMES_LOW).flatMap fun dt =>
    (List.range (NCHANNELS_LOW / 8)).map fun g =>
      ((dt * NCHANNELS_LOW + 8 * g) / 8, packByte d dt (8 * g))

/-- `pack_sc34` of manipulate.c: returns (the downsampled array as the call
leaves it — destructively quantized — and the packed array). -/
def pack_sc34 (d packed0 : ℕ → ℕ) : (ℕ → ℕ) × (ℕ → ℕ) :=
  (quantized d, applyWrites (packWrites (quantized d)) packed0)

/-- C4: for every channel, the quantization cutoff is the truncated
(integer-floored) mean of that channel's NTIMES_LOW downsampled samples,
and a sample quantizes to 1 iff it is strictly greater than the cutoff
(so a sample equal to the cutoff quantizes to 0).  The sample bound 51000
is the code's own documented maximum (manipulate.c lines 33-34); it keeps
the `unsigned int` sum from wrapping. -/
theorem pack_cutoff_floor_mean (d packed0 : ℕ → ℕ)
    (hd : ∀ i, i < NCHANNELS_LOW * NTIMES_LOW → d i ≤ 51000)
    (dc : ℕ) (hdc : dc < NCHANNELS_LOW) :
    cutoff d dc =
      (∑ dt in Finset.range NTIMES_LOW, d (dc * NTIMES_LOW + dt)) /
        NTIMES_LOW ∧
    ∀ dt, dt < NTIMES_LOW →
      (pack_sc34 d packed0).1 (dc * NTIMES_LOW + dt) =
        if cutoff d dc < d (dc * NTIMES_LOW + dt) then 1 else 0 := by
  constructor
  · have hsum : (∑ dt in Finset.range NTIMES_LOW, d (dc * NTIMES_LOW + dt)) ≤
        NTIMES_LOW * 51000 := by
      calc (∑ dt in Finset.range NTIMES_LOW, d (dc * NTIMES_LOW + dt)) ≤
          (Finset.range NTIMES_LOW).card • 51000 := by
            refine Finset.sum_le_card_nsmul _ _ _ ?_
            intro dt hdt
            refine hd _ ?_
            simp only [Finset.mem_range, NTIMES_LOW, NCHANNELS_LOW] at *
            omega
        _ = NTIMES_LOW * 51000 := by
            simp [Finset.card_range, Nat.smul_one_eq_cast]
    rw [cutoff, chanSum, Nat.mod_eq_of_lt]
    simp only [NTIMES_LOW] at hsum ⊢
    omega
  · intro dt hdt
    have hlt : dc * NTIMES_LOW + dt < NCHANNELS_LOW * NTIMES_LOW := by
      simp only [NTIMES_LOW, NCHANNELS_LOW] at *; omega
    have hq : (dc * NTIMES_LOW + dt) / NTIMES_LOW = dc := by
      simp only [NTIMES_LOW] at *; omega
    show quantized d (dc * NTIMES_LOW + dt) = _
    simp only [quantized]
    rw [if_pos hlt, hq]

set_option maxRecDepth 4000 in
/-- Witness for `pack_cutoff_floor_mean`: the all-zero grid, channel 0. -/
theorem pack_cutoff_floor_mean_witness :
    cutoff (fun _ => 0) 0 =
      (∑ dt in Finset.range NTIMES_LOW,
        (fun _ => (0 : ℕ)) (0 * NTIMES_LOW + dt)) / NTIMES_LOW ∧
    ∀ dt, dt < NTIMES_LOW →
      (pack_sc34 (fun _ => 0) (fun _ => 0)).1 (0 * NTIMES_LOW + dt) =
        if cutoff (fun _ => 0) 0 < (fun _ => (0 : ℕ)) (0 * NTIMES_LOW + dt)
        then 1 else 0 :=
  pack_cutoff_floor_mean (fun _ => 0) (fun _ => 0)
    (fun i _ => by norm_num) 0 (by decide)

/-- C10: `pack_sc34` destructively overwrites its downsampled input — after
the call every in-range element holds only the 1-bit value 0 or 1, so the
accumulated 32-bit sums are not recoverable. -/
theorem pack_overwrites_downsampled (d packed0 : ℕ → ℕ) (i : ℕ)
    (hi : i < NCHANNELS_LOW * NTIMES_LOW) :
    (pack_sc34 d packed0).1 i = 0 ∨ (pack_sc34 d packed0).1 i = 1 := by
  show quantized d i = 0 ∨ quantized d i = 1
  rw [quantized]
  simp only [if_pos hi]
  by_cases h : cutoff d (i / NTIMES_LOW) < d i
  · right; rw [if_pos h]
  · left; rw [if_neg h]

/-- Witness for `pack_overwrites_downsampled`: a grid of 7s, element 0. -/
theorem pack_overwrites_downsampled_witness :
    (pack_sc34 (fun _ => 7) (fun _ => 0)).1 0 = 0 ∨
    (pack_sc34 (fun _ => 7) (fun _ => 0)).1 0 = 1 :=
  pack_overwrites_downsampled (fun _ => 7) (fun _ => 0) 0 (by decide)

/-- C3 (code evidence): the third pass's read pointer moves UP one channel
per bit instead of down — for the byte at (dt = 0, dc = 0), bit 0 reads
channel `NCHANNELS_LOW - 1` (index 191500 > 191000... see conjuncts), and
bit 1 already reads index `NCHANNELS_LOW * NTIMES_LOW` = 192000, one full
channel PAST the end of the downsampled array, instead of the claim's
channel `NCHANNELS_LOW - 1 - 1 = 382` (index 191000).  Consequently a grid
whose only set bit (post quantization) is channel 382 packs byte
(dt = 0, dc = 0) as 0, while the claim predicts bit 1 set (byte 2). -/
theorem pack_bit_read_out_of_bounds :
    packReadIdx 0 0 0 = (NCHANNELS_LOW - 1) * NTIMES_LOW ∧
    packReadIdx 0 0 1 = NCHANNELS_LOW * NTIMES_LOW ∧
    NCHANNELS_LOW * NTIMES_LOW = 192000 ∧
    (NCHANNELS_LOW - 1 - (0 + 1)) * NTIMES_LOW + 0 = 191000 ∧
    packByte (fun i => if i = 382 * 500 then 1 else 0) 0 0 = 0 ∧
    (2 : ℕ) ≠ 0 := by
  refine ⟨by decide, by decide, by decide, by decide, ?_, by decide⟩
  decide

/-- C7 (code evidence): the `fits_offset`/`fits_scale` store index
`NCHANNELS_LOW - dc` (manipulate.c lines 54-55) equals `NCHANNELS_LOW`
at `dc = 0` — one past the last valid 0-based index
`NCHANNELS_LOW - 1` of a `NCHANNELS_LOW`-element per-channel array. -/
theorem offset_scale_index_out_of_range :
    offsetScaleIdx 0 = NCHANNELS_LOW ∧
    NCHANNELS_LOW - 1 < offsetScaleIdx 0 := by
  refine ⟨by decide, by decide⟩

/-!
## Beam synthesizer — main.c lines 463-507

For each selected synthesized beam, for each of the 32 subbands: look the
source tab up in the table; `if (tab == SUBBAND_UNSET || tab > ntabs)` the
run exits; otherwise for each time and polarization a 48-byte `memcpy`
moves the subband (at channel offset `(NSUBBANDS - 1 - band) * 48`) from
the source tab's transposed block to the same offset of the synthesized
buffer.  The table entries are C `int`s, modelled as `ℤ`; a fatal `exit` is
`none`. -/
def subbandTabInvalid (tab ntabs : ℤ) : Bool :=
  if tab = SUBBAND_UNSET ∨ tab > ntabs then true else false

/-- The stores of one subband's copy loop (main.c lines 479-493), one list
entry per byte of each 48-byte `memcpy`. -/
def synthBandWrites (transposed : ℕ → ℕ) (ntimes tab band : ℕ) :
    List (ℕ × ℕ) :=
  (List.range ntimes).flatMap fun tn =>
    (List.range NPOLS).flatMap fun pn =>
      (List.range FREQS_PER_SUBBAND).map fun k =>
        (tn * NPOLS * NCHANNELS + pn * NCHANNELS +
           (NSUBBANDS - 1 - band) * FREQS_PER_SUBBAND + k,
         transposed (tab * ntimes * NPOLS * NCHANNELS +
           tn * NPOLS * NCHANNELS + pn * NCHANNELS +
           (NSUBBANDS - 1 - band) * FREQS_PER_SUBBAND + k))

/-- The subband loop of main.c lines 470-494: validity check, then copy;
a failed check aborts the run (`exit(EXIT_FAILURE)`, modelled `none`). -/
def synthGo (transposed : ℕ → ℕ) (ntimes : ℕ) (ntabs : ℤ)
    (tableRow : ℕ → ℤ) : List ℕ → (ℕ → ℕ) → Option (ℕ → ℕ)
  | [], f => some f
  | band :: rest, f =>
      if subbandTabInvalid (tableRow band) ntabs then none
      else
        synthGo transposed ntimes ntabs tableRow rest
          (applyWrites
            (synthBandWrites transposed ntimes (tableRow band).toNat band) f)

/-- Synthesis of one selected beam from its table row. -/
def synthesizeBeam (transposed : ℕ → ℕ) (ntimes : ℕ) (ntabs : ℤ)
    (tableRow : ℕ → ℤ) (synthesized0 : ℕ → ℕ) : Option (ℕ → ℕ) :=
  synthGo transposed ntimes ntabs tableRow (List.range NSUBBANDS) synthesized0

theorem flatMap_congr_mem {α β : Type} (l : List α) (F G : α → List β)
    (h : ∀ a ∈ l, F a = G a) : l.flatMap F = l.flatMap G := by
  induction l with
  | nil => rfl
  | cons a t ih =>
    rw [List.flatMap_cons, List.flatMap_cons, h a (List.mem_cons_self a t),
      ih (fun b hb => h b (List.mem_cons_of_mem a hb))]

theorem synthGo_valid (transposed : ℕ → ℕ) (ntimes : ℕ) (ntabs : ℤ)
    (tableRow : ℕ → ℤ) :
    ∀ (bands : List ℕ) (f : ℕ → ℕ),
      (∀ b ∈ bands, subbandTabInvalid (tableRow b) ntabs = false) →
      synthGo transposed ntimes ntabs tableRow bands f =
        some (applyWrites
          (bands.flatMap fun b =>
            synthBandWrites transposed ntimes (tableRow b).toNat b) f) := by
  intro bands
  induction bands with
  | nil => intro f _; rfl
  | cons b t ih =>
    intro f h
    rw [synthGo, h b (List.mem_cons_self b t)]
    simp only [Bool.false_eq_true, if_false]
    rw [ih _ (fun q hq => h q (List.mem_cons_of_mem b hq)),
      List.flatMap_cons, applyWrites_append]

theorem mem_synthAllWrites {transposed : ℕ → ℕ} {ntimes tab i v : ℕ} :
    (i, v) ∈ ((List.range NSUBBANDS).flatMap fun band =>
        synthBandWrites transposed ntimes tab band) ↔
      ∃ band, band < NSUBBANDS ∧ ∃ tn, tn < ntimes ∧ ∃ pn, pn < NPOLS ∧
        ∃ k, k < FREQS_PER_SUBBAND ∧
          i = tn * NPOLS * NCHANNELS + pn * NCHANNELS +
            (NSUBBANDS - 1 - band) * FREQS_PER_SUBBAND + k ∧
          v = transposed (tab * ntimes * NPOLS * NCHANNELS +
            tn * NPOLS * NCHANNELS + pn * NCHANNELS +
            (NSUBBANDS - 1 - band) * FREQS_PER_SUBBAND + k) := by
  simp only [synthBandWrites, List.mem_flatMap, List.mem_map, List.mem_range,
    Prod.mk.injEq]
  constructor
  · rintro ⟨band, hband, tn, htn, pn, hpn, k, hk, h1, h2⟩
    exact ⟨band, hband, tn, htn, pn, hpn, k, hk, h1.symm, h2.symm⟩
  · rintro ⟨band, hband, tn, htn, pn, hpn, k, hk, h1, h2⟩
    exact ⟨band, hband, tn, htn, pn, hpn, k, hk, h1.symm, h2.symm⟩

/-- C8: if every one of the 32 subband table entries for a selected beam
maps to the same valid source beam `S`, synthesis succeeds and the
synthesized block is byte-identical to source beam `S`'s slice of the
transposed buffer (same channel/polarization/time layout). -/
theorem synthesizeBeam_const_table (transposed synthesized0 : ℕ → ℕ)
    (ntimes ntabs S : ℕ) (tableRow : ℕ → ℤ)
    (htable : ∀ band, band < NSUBBANDS → tableRow band = (S : ℤ))
    (hS : S < ntabs) :
    ∃ f, synthesizeBeam transposed ntimes (ntabs : ℤ) tableRow synthesized0 =
        some f ∧
      ∀ o, o < ntimes * NPOLS * NCHANNELS →
        f o = transposed (S * ntimes * NPOLS * NCHANNELS + o) := by
  have hvalid : ∀ b ∈ List.range NSUBBANDS,
      subbandTabInvalid (tableRow b) ntabs = false := by
    intro b hb
    rw [htable b (List.mem_range.mp hb)]
    have hcond : ¬((S : ℤ) = SUBBAND_UNSET ∨ (S : ℤ) > (ntabs : ℤ)) := by
      simp only [SUBBAND_UNSET]
      push_neg
      constructor <;> omega
    rw [subbandTabInvalid, if_neg hcond]
  rw [synthesizeBeam, synthGo_valid transposed ntimes _ tableRow _ _ hvalid]
  have hrw : ((List.range NSUBBANDS).flatMap fun b =>
      synthBandWrites transposed ntimes (tableRow b).toNat b) =
      ((List.range NSUBBANDS).flatMap fun b =>
      synthBandWrites transposed ntimes S b) := by
    refine flatMap_congr_mem _ _ _ ?_
    intro b hb
    rw [htable b (List.mem_range.mp hb), Int.toNat_natCast]
  rw [hrw]
  refine ⟨_, rfl, ?_⟩
  intro o ho
  refine applyWrites_written _ _ _ _ ?_ ?_
  · rintro ⟨i, w⟩ hp hpi
    obtain ⟨band, hband, tn, htn, pn, hpn, k, hk, hi, hw⟩ :=
      mem_synthAllWrites.mp hp
    simp only at hpi
    rw [hw]
    refine congrArg transposed ?_
    rw [← hpi, hi]
    ring
  · have hdecomp : ∃ band tn pn k, band < NSUBBANDS ∧ tn < ntimes ∧
        pn < NPOLS ∧ k < FREQS_PER_SUBBAND ∧
        tn * NPOLS * NCHANNELS + pn * NCHANNELS +
          (NSUBBANDS - 1 - band) * FREQS_PER_SUBBAND + k = o := by
      simp only [NPOLS, NCHANNELS, NSUBBANDS, FREQS_PER_SUBBAND] at ho ⊢
      refine ⟨31 - o % 6144 % 1536 / 48, o / 6144, o % 6144 / 1536,
        o % 6144 % 1536 % 48, ?_, ?_, ?_, ?_, ?_⟩ <;> omega
    obtain ⟨band, tn, pn, k, hband, htn, hpn, hk, heq⟩ := hdecomp
    exact ⟨(tn * NPOLS * NCHANNELS + pn * NCHANNELS +
        (NSUBBANDS - 1 - band) * FREQS_PER_SUBBAND + k,
      transposed (S * ntimes * NPOLS * NCHANNELS +
        tn * NPOLS * NCHANNELS + pn * NCHANNELS +
        (NSUBBANDS - 1 - band) * FREQS_PER_SUBBAND + k)),
      mem_synthAllWrites.mpr
        ⟨band, hband, tn, htn, pn, hpn, k, hk, rfl, rfl⟩, heq⟩

/-- Witness for `synthesizeBeam_const_table`: one time sample, one source
beam 0 of 1, every table entry 0, the transposed buffer holding `i` at
index `i`. -/
theorem synthesizeBeam_const_table_witness :
    ∃ f, synthesizeBeam (fun i => i) 1 ((1 : ℕ) : ℤ)
        (fun _ => ((0 : ℕ) : ℤ)) (fun _ => 0) = some f ∧
      ∀ o, o < 1 * NPOLS * NCHANNELS →
        f o = (fun i => i) (0 * 1 * NPOLS * NCHANNELS + o) :=
  synthesizeBeam_const_table (fun i => i) (fun _ => 0) 1 1 0
    (fun _ => ((0 : ℕ) : ℤ)) (fun _ _ => rfl) (by decide)

/-- C6 (code evidence): the validity check of main.c line 473,
`tab == SUBBAND_UNSET || tab > ntabs`, accepts a table entry EQUAL to
`ntabs` — one past the last valid tied-array beam index `ntabs - 1` —
while rejecting `SUBBAND_UNSET` and entries strictly above `ntabs`.  With
every entry 12 and ntabs = 12 (the science case 4 tied-array count),
synthesis proceeds instead of failing fatally, and its very first copied
byte reads the transposed buffer at index
`12 * ntimes * NPOLS * NCHANNELS + 31 * 48`, at least `ntabs * ntimes *
NPOLS * NCHANNELS` — past the end of the allocated buffer. -/
theorem subband_check_accepts_ntabs :
    subbandTabInvalid 12 12 = false ∧
    subbandTabInvalid SUBBAND_UNSET 12 = true ∧
    subbandTabInvalid 13 12 = true ∧
    (synthesizeBeam (fun i => i) 1 12 (fun _ => 12) (fun _ => 0)).isSome =
      true ∧
    (synthBandWrites (fun i => i) 1 12 0).head? =
      some (31 * 48, 12 * 1 * NPOLS * NCHANNELS + 31 * 48) ∧
    12 * 1 * NPOLS * NCHANNELS ≤ 12 * 1 * NPOLS * NCHANNELS + 31 * 48 :=
  ⟨by decide, by decide, by decide, by decide, by decide, by decide⟩
